import Mathlib

/-!
Verification of the desmos-drawer vectorization pipeline (src/main.py).

The core logic lives in two functions of src/main.py:
  * bezier_to_equations (lines 109-131): renders a cubic Bezier as a pair of
    parametric expression strings, flipping image y into Cartesian y.
  * image_to_equations (lines 133-204): per contour, simplifies the contour
    (cv2.approxPolyDP with epsilon = inaccuracy * arcLength), then classifies
    every consecutive vertex pair (including the wrap-around pair) as a
    vertical line, horizontal line or parametric cubic curve, and joins the
    rendered equation strings with newlines, falling back to a fixed message
    when no equation was produced.

Numbers: vertex coordinates are Python ints, modelled as Int.  The curve
coefficients are Python binary64 floats; every float operation of the
source (the / 3.0 divisions, the float() conversions, the img_height - y
subtractions) is modelled by computing the exact rational result and
rounding it to the value of the nearest binary64 double (ratNearestDouble
below), which is the IEEE semantics of the operation whenever its operands
are exactly representable — true of all pixel coordinates and image
heights, which are far below 2 ^ 53.  Textual rendering of a double is the
shortest correctly-rounded decimal that parses back to the same double
(pyFloatStr below), which is how CPython prints a float.
-/

namespace DesmosDrawer

/-- An integer point in image space (a contour / polygon vertex). -/
structure Pt where
  x : Int
  y : Int
deriving DecidableEq, Repr

instance : Inhabited Pt := ⟨⟨0, 0⟩⟩

/-! ### Python float rendering, modelled over exact rationals -/

/-- Round-to-nearest integer division a / b for b > 0, ties to even
(the IEEE rounding rule), on naturals. -/
def rdivHalfEven (a b : Nat) : Nat :=
  let q := a / b
  let r := a % b
  if 2 * r < b then q
  else if b < 2 * r then q + 1
  else if q % 2 = 0 then q else q + 1

/-- Fuel-driven floor logarithm for an arbitrary base (structural, so that
the kernel can evaluate it). -/
def natLogF (b : Nat) : Nat → Nat → Nat
  | 0, _ => 0
  | f + 1, n => if n < b then 0 else natLogF b f (n / b) + 1

/-- Floor log base b on positive naturals (0 for n = 0). -/
def flogNat (b n : Nat) : Nat :=
  natLogF b n n

/-- Ceiling log base b on naturals: least m with b ^ m ≥ n (0 for n ≤ 1). -/
def clogNat (b n : Nat) : Nat :=
  if n ≤ 1 then 0 else flogNat b (n - 1) + 1

/-- Floor of log base b of the positive fraction n / d (n, d ≥ 1). -/
def fracLog (b n d : Nat) : Int :=
  if d ≤ n then (flogNat b (n / d) : Int)
  else -(clogNat b ((d + n - 1) / n) : Int)

/-- The binary64 double nearest to the positive fraction n / d (round to
nearest, ties to even; subnormals via the clamped exponent; overflow not
modelled since the pipeline only produces values far below the binary64
range), returned as a canonical significand-exponent pair (M, E) with
value M * 2 ^ E: for normal results M lies in [2^52, 2^53), and the
minimum exponent is -1074. -/
def natNearestDoubleME (n d : Nat) : Nat × Int :=
  let e := fracLog 2 n d
  let e' := if e < -1022 then (-1022 : Int) else e
  let M := if 52 ≤ e' then rdivHalfEven n (d * 2 ^ (e' - 52).toNat)
           else rdivHalfEven (n * 2 ^ (52 - e').toNat) d
  if M = 2 ^ 53 then (2 ^ 52, e' - 51) else (M, e' - 52)

/-- The exact value of the IEEE binary64 double nearest to a rational
(round to nearest, ties to even). -/
def ratNearestDouble (q : ℚ) : ℚ :=
  if q = 0 then 0
  else
    let me := natNearestDoubleME q.num.natAbs q.den
    let sgn : ℚ := if q < 0 then -1 else 1
    if 0 ≤ me.2 then sgn * ((me.1 * 2 ^ me.2.toNat : Nat) : ℚ)
    else sgn * (me.1 : ℚ) / ((2 ^ (-me.2).toNat : Nat) : ℚ)

/-- Round the positive fraction P / Q (whose leading decimal digit has
exponent t) to p significant decimal digits, ties to even, returning the
digit block and the possibly carried exponent: the rounded value is
digits * 10 ^ (result exponent - p + 1). -/
def sigDigitsI (P Q : Nat) (t : Int) (p : Nat) : Nat × Int :=
  let s := t - (p : Int) + 1
  let n0 := rdivHalfEven (P * 10 ^ (-s).toNat) (Q * 10 ^ s.toNat)
  if n0 = 10 ^ p then (10 ^ (p - 1), t + 1) else (n0, t)

/-- Whether the p-significant-digit decimal rounding of the double
(P / Q, canonically me) parses back (to nearest) as the same double. -/
def sigRoundTripsI (P Q : Nat) (me : Nat × Int) (t : Int) (p : Nat) : Bool :=
  let dt := sigDigitsI P Q t p
  let s := dt.2 - (p : Int) + 1
  natNearestDoubleME (dt.1 * 10 ^ s.toNat) (10 ^ (-s).toNat) = me

/-- Fuel-driven search for the least precision from p upward (17 caps it)
whose decimal rounding round-trips for the double (P / Q, canonically me)
with leading-digit exponent t. -/
def shortestPrecF : Nat → Nat → Nat → Nat × Int → Int → Nat → Nat
  | 0, _, _, _, _, _ => 17
  | f + 1, P, Q, me, t, p =>
    if 17 ≤ p then 17
    else if sigRoundTripsI P Q me t p then p
    else shortestPrecF f P Q me t (p + 1)

/-- A string of k zero digits. -/
def zeroStr (k : Nat) : String :=
  ⟨List.replicate k '0'⟩

/-- Assemble the decimal text for digit block n with leading-digit exponent t,
following the fixed/exponential format choice CPython uses for repr. -/
def decimalStr (n : Nat) (t : Int) : String :=
  let digs := toString n
  let p : Int := (digs.length : Int)
  if t < -4 ∨ 16 ≤ t then
    let mant :=
      if digs.length ≤ 1 then digs
      else ⟨digs.data.take 1⟩ ++ "." ++ ⟨digs.data.drop 1⟩
    let as := if t < 0 then (-t).toNat else t.toNat
    let expDigs := if as < 10 then "0" ++ toString as else toString as
    mant ++ "e" ++ (if t < 0 then "-" else "+") ++ expDigs
  else if t < 0 then
    "0." ++ zeroStr (Int.toNat (-t - 1)) ++ digs
  else if t + 1 < p then
    ⟨digs.data.take (Int.toNat (t + 1))⟩ ++ "." ++ ⟨digs.data.drop (Int.toNat (t + 1))⟩
  else
    digs ++ zeroStr (Int.toNat (t + 1 - p)) ++ ".0"

/-- The text CPython prints for the binary64 double nearest to the rational q:
the shortest correctly-rounded decimal that parses back to the same double. -/
def pyFloatStr (q : ℚ) : String :=
  if q = 0 then "0.0"
  else
    let me := natNearestDoubleME q.num.natAbs q.den
    if me.1 = 0 then "0.0"
    else
      let P := if 0 ≤ me.2 then me.1 * 2 ^ me.2.toNat else me.1
      let Q := if 0 ≤ me.2 then 1 else 2 ^ (-me.2).toNat
      let t := fracLog 10 P Q
      let p := shortestPrecF 17 P Q me t 1
      let dt := sigDigitsI P Q t p
      (if q < 0 then "-" else "") ++ decimalStr dt.1 dt.2

/-! ### Equation text templates (src/main.py lines 119-130, 181, 189, 199) -/

/-- The restriction-clause template shared by both line kinds:
an inequality chain wrapped in the escaped-brace Desmos syntax. -/
def clauseStr (lo : Int) (v : String) (hi : Int) : String :=
  " \\left\\\x7b" ++ toString lo ++ " <= " ++ v ++ " <= " ++ toString hi ++ "\\right\\\x7d"

/-- The vertical-line equation text (line 181 of src/main.py). -/
def vertLineStr (x yTop yBot : Int) : String :=
  "x = " ++ toString x ++ clauseStr yTop "y" yBot

/-- The horizontal-line equation text (line 189 of src/main.py). -/
def horizLineStr (y xL xR : Int) : String :=
  "y = " ++ toString y ++ clauseStr xL "x" xR

/-- The cubic Bernstein blend template of bezier_to_equations
(lines 119-130 of src/main.py), with the four coefficients substituted. -/
def blendExpr (a b c d : ℚ) : String :=
  "(1-t)^3*" ++ pyFloatStr a ++ " + 3*(1-t)^2*t*" ++ pyFloatStr b ++
    " + 3*(1-t)*t^2*" ++ pyFloatStr c ++ " + t^3*" ++ pyFloatStr d

/-- src/main.py lines 109-131: renders a cubic Bezier given by start,
two control points and end as a pair of parametric expression strings,
flipping every y via img_height - y.  The float() conversion of each x and
the binary64 subtraction img_height - y are modelled by rounding the exact
rational result to the nearest double; for a control y that is already a
rounded double this performs the second rounding of the source's
float(img_height - c[1]).  The x expression carries its own surrounding
parentheses; the y expression does not. -/
def bezier_to_equations (start c1 c2 pEnd : ℚ × ℚ) (img_height : ℚ) :
    String × String :=
  let s := (ratNearestDouble start.1, ratNearestDouble (img_height - start.2))
  let c1f := (ratNearestDouble c1.1, ratNearestDouble (img_height - c1.2))
  let c2f := (ratNearestDouble c2.1, ratNearestDouble (img_height - c2.2))
  let e := (ratNearestDouble pEnd.1, ratNearestDouble (img_height - pEnd.2))
  ("(" ++ blendExpr s.1 c1f.1 c2f.1 e.1 ++ ")",
   blendExpr s.2 c1f.2 c2f.2 e.2)

/-- src/main.py lines 171-199: classify one segment of the simplified
polygon and render its equation text.  Vertical (dx = 0) is checked first,
then horizontal (dy = 0); otherwise two synthetic control points at the
third points are built — each / 3.0 is a binary64 division, modelled by
rounding the exact quotient to the nearest double — and a parametric cubic
is rendered. -/
def segment_line (img_height : Int) (p1 p2 : Pt) : String :=
  let x1 := p1.x
  let y1 := p1.y
  let x2 := p2.x
  let y2 := p2.y
  let dx := x2 - x1
  let dy := y2 - y1
  if dx = 0 then
    vertLineStr x1 (img_height - max y1 y2) (img_height - min y1 y2)
  else if dy = 0 then
    horizLineStr (img_height - y1) (min x1 x2) (max x1 x2)
  else
    let c1 : ℚ × ℚ := (ratNearestDouble ((2 * x1 + x2 : Int) / 3),
                       ratNearestDouble ((2 * y1 + y2 : Int) / 3))
    let c2 : ℚ × ℚ := (ratNearestDouble ((x1 + 2 * x2 : Int) / 3),
                       ratNearestDouble ((y1 + 2 * y2 : Int) / 3))
    let exy := bezier_to_equations ((x1 : ℚ), (y1 : ℚ)) c1 c2 ((x2 : ℚ), (y2 : ℚ)) (img_height : ℚ)
    "(" ++ exy.1 ++ ", " ++ exy.2 ++ ")"

/-! ### The tagged Equation value of spec section 3, and its section-6 renderer -/

/-- The tagged Equation value of the specification data model:
a vertical line x = x for y in [yTop, yBot], a horizontal line y = y for
x in [xL, xR], or a parametric cubic whose two axis expressions are the
Bernstein blends of the given (already y-flipped) coefficients. -/
inductive Equation where
  | verticalLine (x yTop yBot : Int)
  | horizontalLine (y xL xR : Int)
  | parametricCurve (sx c1x c2x ex sy c1y c2y ey : ℚ)
deriving DecidableEq

/-- The literal rendering of spec section 6 for each Equation kind. -/
def renderEquation : Equation → String
  | .verticalLine x yTop yBot => vertLineStr x yTop yBot
  | .horizontalLine y xL xR => horizLineStr y xL xR
  | .parametricCurve sx c1x c2x ex sy c1y c2y ey =>
      "(" ++ ("(" ++ blendExpr sx c1x c2x ex ++ ")") ++ ", " ++
        blendExpr sy c1y c2y ey ++ ")"

/-! ### The per-image pipeline (src/main.py lines 133-204) -/

/-- The cartesian flip of spec section 4.4: cartY(p) = imageHeight - p.y. -/
def cartY (img_height y : Int) : Int := img_height - y

/-- src/main.py lines 167-199: one equation line per vertex of the
simplified polygon, pairing each vertex with its cyclic successor
(the wrap-around pair included via the index (i+1) mod V). -/
def polygon_lines (img_height : Int) (approx : List Pt) : List String :=
  (List.range approx.length).map fun i =>
    segment_line img_height (approx.getD i default)
      (approx.getD ((i + 1) % approx.length) default)

/-- src/main.py lines 157-199: the equation lines contributed by one
contour.  Contours with fewer than 2 points are skipped, the contour is
simplified (the simplifier is the external cv2.approxPolyDP call, passed
here as a function), and simplification results with fewer than 2 vertices
are skipped as well. -/
def contour_lines (img_height : Int) (simplify : List Pt → List Pt)
    (contour : List Pt) : List String :=
  if contour.length < 2 then []
  else
    let approx := simplify contour
    if approx.length < 2 then []
    else polygon_lines img_height approx

/-- The verbatim fallback line of src/main.py line 202. -/
def fallbackLine : String :=
  "# No contours/equations were detected. Try a clearer or higher-contrast image."

/-- Python "\n".join, i.e. newline-joining of the equation list. -/
def joinLines : List String → String
  | [] => ""
  | [l] => l
  | l :: ls => l ++ "\n" ++ joinLines ls

/-- The accumulated equation-line list (the local variable lines of
src/main.py, filled across all contours in order, lines 155-199). -/
def image_lines (img_height : Int) (simplify : List Pt → List Pt)
    (contours : List (List Pt)) : List String :=
  (contours.map (contour_lines img_height simplify)).flatten

/-- src/main.py lines 133-204 from the contour list onward: accumulate the
per-contour equation lines in order; if none were produced return the
fallback line, otherwise the newline-joined equations.  The upstream
stages (decode, grayscale, blur, Canny, findContours) only determine the
arguments img_height and contours; the simplifier argument stands for the
external cv2.approxPolyDP call with its per-contour epsilon. -/
def image_to_equations (img_height : Int) (simplify : List Pt → List Pt)
    (contours : List (List Pt)) : String :=
  let lines := image_lines img_height simplify contours
  if lines = [] then fallbackLine
  else joinLines lines

/-! ### The contour simplifier

cv2.approxPolyDP itself is an external library routine, not part of
src/main.py, so it is modelled from the specification here (spec
section 4.3): a Ramer-Douglas-Peucker simplification of the closed
contour with distance tolerance epsilon. -/

/-- Squared Euclidean distance between two integer points, as a rational. -/
def ptDistSq (a p : Pt) : ℚ :=
  (((p.x - a.x) ^ 2 + (p.y - a.y) ^ 2 : Int) : ℚ)

/-- Squared distance from p to the line through a and b (squared distance
to the point a when a = b).  Exact rational arithmetic. -/
def lineDistSq (a b p : Pt) : ℚ :=
  if a = b then ptDistSq a p
  else
    ((((b.x - a.x) * (p.y - a.y) - (b.y - a.y) * (p.x - a.x)) ^ 2 : Int) : ℚ) /
      (((b.x - a.x) ^ 2 + (b.y - a.y) ^ 2 : Int) : ℚ)

/-- Index (first maximiser) and value of the largest lineDistSq a b over a
list of interior points. -/
def maxIdx (a b : Pt) : List Pt → Nat × ℚ
  | [] => (0, 0)
  | [p] => (0, lineDistSq a b p)
  | p :: q :: rest =>
    let r := maxIdx a b (q :: rest)
    let dp := lineDistSq a b p
    if dp < r.2 then (r.1 + 1, r.2) else (0, dp)

/-- Modelled from the spec: the recursive Ramer-Douglas-Peucker step of
spec section 4.3 for an open chain from a to b with interior points mid
(cv2.approxPolyDP is not part of src/main.py).  If every interior point
lies within the tolerance of the chord the chain collapses to its two
endpoints, otherwise it is split at the farthest interior point and both
halves are simplified.  epsSq is the squared distance tolerance; the fuel
argument is an upper bound on the recursion depth that makes the
definition structural (it never runs out when started at mid.length). -/
def rdpF : Nat → ℚ → Pt → List Pt → Pt → List Pt
  | 0, _, a, _, b => [a, b]
  | f + 1, epsSq, a, mid, b =>
    match mid with
    | [] => [a, b]
    | _ :: _ =>
      let i := (maxIdx a b mid).1
      let d := (maxIdx a b mid).2
      if d ≤ epsSq then [a, b]
      else
        rdpF f epsSq a (mid.take i) (mid.getD i default) ++
          (rdpF f epsSq (mid.getD i default) (mid.drop (i + 1)) b).tail

/-- Ramer-Douglas-Peucker on an open chain given as a full point list. -/
def rdpChain (epsSq : ℚ) : List Pt → List Pt
  | [] => []
  | [p] => [p]
  | a :: b :: rest =>
    rdpF (b :: rest).length epsSq a (b :: rest).dropLast ((b :: rest).getLastD b)

/-- Modelled from the spec: closed-contour simplification (spec section
4.3, cv2.approxPolyDP in list-of-points closed mode is not part of
src/main.py).  The closed loop is split at the vertex farthest from the
first point, both resulting open chains are simplified with the same
tolerance, and the results are rejoined without repeating the two shared
vertices.  eps is the distance tolerance (epsilon = k * perimeter in the
caller); distances are compared squared. -/
def simplifyClosed (eps : ℚ) (c : List Pt) : List Pt :=
  match c with
  | [] => []
  | [p] => [p]
  | c0 :: c1 :: rest =>
    let f := (maxIdx c0 c0 (c1 :: rest)).1 + 1
    let chain1 := (c0 :: c1 :: rest).take (f + 1)
    let chain2 := (c0 :: c1 :: rest).drop f ++ [c0]
    rdpChain (eps ^ 2) chain1 ++ ((rdpChain (eps ^ 2) chain2).tail).dropLast

/-! ### Helper lemmas -/

lemma segment_line_eq_vert (H : Int) (p1 p2 : Pt) (h : p2.x - p1.x = 0) :
    segment_line H p1 p2 =
      vertLineStr p1.x (H - max p1.y p2.y) (H - min p1.y p2.y) := by
  simp only [segment_line, h, if_pos rfl, if_true]

lemma segment_line_eq_horiz (H : Int) (p1 p2 : Pt)
    (h1 : p2.x - p1.x ≠ 0) (h2 : p2.y - p1.y = 0) :
    segment_line H p1 p2 =
      horizLineStr (H - p1.y) (min p1.x p2.x) (max p1.x p2.x) := by
  simp only [segment_line, h1, h2, if_false, if_true, if_pos, if_neg]

lemma segment_line_eq_curve (H : Int) (p1 p2 : Pt)
    (h1 : p2.x - p1.x ≠ 0) (h2 : p2.y - p1.y ≠ 0) :
    segment_line H p1 p2 =
      renderEquation (.parametricCurve
        (ratNearestDouble (p1.x : ℚ))
        (ratNearestDouble (ratNearestDouble (((2 * p1.x + p2.x : Int) : ℚ) / 3)))
        (ratNearestDouble (ratNearestDouble (((p1.x + 2 * p2.x : Int) : ℚ) / 3)))
        (ratNearestDouble (p2.x : ℚ))
        (ratNearestDouble ((H : ℚ) - (p1.y : ℚ)))
        (ratNearestDouble ((H : ℚ) - ratNearestDouble (((2 * p1.y + p2.y : Int) : ℚ) / 3)))
        (ratNearestDouble ((H : ℚ) - ratNearestDouble (((p1.y + 2 * p2.y : Int) : ℚ) / 3)))
        (ratNearestDouble ((H : ℚ) - (p2.y : ℚ)))) := by
  simp only [segment_line, h1, h2, if_false, if_neg, not_false_iff]
  simp [bezier_to_equations, renderEquation, String.append_assoc]

/-! ### Claim theorems: segment classification and synthesis -/

/-- C3: For every segment (p1,p2) of a simplified polygon in an image of
height H, if p2.x - p1.x = 0 the emitted equation is a VerticalLine with
x = p1.x and y-range from min(H-p1.y, H-p2.y) to max(H-p1.y, H-p2.y);
else if p2.y - p1.y = 0 the emitted equation is a HorizontalLine with
y = H-p1.y and x-range from min(p1.x,p2.x) to max(p1.x,p2.x). -/
theorem axis_aligned_segment_equations (H : Int) (p1 p2 : Pt) :
    (p2.x - p1.x = 0 →
      segment_line H p1 p2 = renderEquation (.verticalLine p1.x
        (min (H - p1.y) (H - p2.y)) (max (H - p1.y) (H - p2.y)))) ∧
    (p2.x - p1.x ≠ 0 → p2.y - p1.y = 0 →
      segment_line H p1 p2 = renderEquation (.horizontalLine (H - p1.y)
        (min p1.x p2.x) (max p1.x p2.x))) := by
  constructor
  · intro h
    rw [segment_line_eq_vert H p1 p2 h]
    have e1 : H - max p1.y p2.y = min (H - p1.y) (H - p2.y) := by omega
    have e2 : H - min p1.y p2.y = max (H - p1.y) (H - p2.y) := by omega
    simp only [renderEquation, e1, e2]
  · intro h1 h2
    rw [segment_line_eq_horiz H p1 p2 h1 h2]
    rfl

/-- C3 witness: concrete vertical and horizontal segments. -/
theorem axis_aligned_segment_equations_witness :
    segment_line 10 ⟨5, 6⟩ ⟨5, 9⟩ =
      renderEquation (.verticalLine 5 (min (10 - 6) (10 - 9)) (max (10 - 6) (10 - 9))) ∧
    segment_line 10 ⟨2, 4⟩ ⟨7, 4⟩ =
      renderEquation (.horizontalLine (10 - 4) (min 2 7) (max 2 7)) :=
  ⟨(axis_aligned_segment_equations 10 ⟨5, 6⟩ ⟨5, 9⟩).1 (by decide),
   (axis_aligned_segment_equations 10 ⟨2, 4⟩ ⟨7, 4⟩).2 (by decide) (by decide)⟩

/-- C5: A degenerate segment with p1 = p2 (dx = 0 and dy = 0) is classified
as vertical (the vertical check runs first) and yields a VerticalLine whose
y-range is zero-length (both bounds equal H - p.y). -/
theorem degenerate_segment_is_vertical (H : Int) (p : Pt) :
    segment_line H p p = renderEquation (.verticalLine p.x (H - p.y) (H - p.y)) := by
  rw [segment_line_eq_vert H p p (by omega)]
  simp [renderEquation]

/-- C4 (amended): A segment with dx ≠ 0 and dy ≠ 0 emits exactly one
ParametricCurve whose control points are the binary64 roundings of
c1 = p1 + (p2-p1)/3 and c2 = p1 + 2(p2-p1)/3 (the repeated rounding on the
x side is the source's float() re-conversion of an already-rounded value)
and whose y-axis blend values are the binary64 subtractions H - cy over the
y-flipped coordinates; in particular for p1 = (0,0), p2 = (10,10) the
emitted control-point coefficients are the binary64 values of (2*0+10)/3
and (0+2*10)/3. -/
theorem general_segment_parametric_curve (H : Int) (p1 p2 : Pt) :
    (p2.x - p1.x ≠ 0 → p2.y - p1.y ≠ 0 →
      segment_line H p1 p2 = renderEquation (.parametricCurve
        (ratNearestDouble (p1.x : ℚ))
        (ratNearestDouble (ratNearestDouble ((p1.x : ℚ) + ((p2.x : ℚ) - (p1.x : ℚ)) / 3)))
        (ratNearestDouble (ratNearestDouble ((p1.x : ℚ) + 2 * ((p2.x : ℚ) - (p1.x : ℚ)) / 3)))
        (ratNearestDouble (p2.x : ℚ))
        (ratNearestDouble ((H : ℚ) - (p1.y : ℚ)))
        (ratNearestDouble ((H : ℚ) -
          ratNearestDouble ((p1.y : ℚ) + ((p2.y : ℚ) - (p1.y : ℚ)) / 3)))
        (ratNearestDouble ((H : ℚ) -
          ratNearestDouble ((p1.y : ℚ) + 2 * ((p2.y : ℚ) - (p1.y : ℚ)) / 3)))
        (ratNearestDouble ((H : ℚ) - (p2.y : ℚ))))) ∧
    segment_line H ⟨0, 0⟩ ⟨10, 10⟩ = renderEquation (.parametricCurve
      (ratNearestDouble 0)
      (ratNearestDouble (ratNearestDouble ((2 * 0 + 10) / 3)))
      (ratNearestDouble (ratNearestDouble ((0 + 2 * 10) / 3)))
      (ratNearestDouble 10)
      (ratNearestDouble ((H : ℚ) - 0))
      (ratNearestDouble ((H : ℚ) - ratNearestDouble ((2 * 0 + 10) / 3)))
      (ratNearestDouble ((H : ℚ) - ratNearestDouble ((0 + 2 * 10) / 3)))
      (ratNearestDouble ((H : ℚ) - 10))) := by
  constructor
  · intro h1 h2
    rw [segment_line_eq_curve H p1 p2 h1 h2]
    have e1 : ((2 * p1.x + p2.x : Int) : ℚ) / 3 =
        (p1.x : ℚ) + ((p2.x : ℚ) - (p1.x : ℚ)) / 3 := by push_cast; ring
    have e2 : ((p1.x + 2 * p2.x : Int) : ℚ) / 3 =
        (p1.x : ℚ) + 2 * ((p2.x : ℚ) - (p1.x : ℚ)) / 3 := by push_cast; ring
    have e3 : ((2 * p1.y + p2.y : Int) : ℚ) / 3 =
        (p1.y : ℚ) + ((p2.y : ℚ) - (p1.y : ℚ)) / 3 := by push_cast; ring
    have e4 : ((p1.y + 2 * p2.y : Int) : ℚ) / 3 =
        (p1.y : ℚ) + 2 * ((p2.y : ℚ) - (p1.y : ℚ)) / 3 := by push_cast; ring
    rw [e1, e2, e3, e4]
  · rw [segment_line_eq_curve H ⟨0, 0⟩ ⟨10, 10⟩ (by decide) (by decide)]
    norm_num

/-- C4 witness: the diagonal segment (0,0)-(10,10) at image height 10. -/
theorem general_segment_parametric_curve_witness :
    (10 : Int) - 0 ≠ 0 ∧ (10 : Int) - 0 ≠ 0 ∧
    segment_line 10 ⟨0, 0⟩ ⟨10, 10⟩ = renderEquation (.parametricCurve
      (ratNearestDouble ((0 : Int) : ℚ))
      (ratNearestDouble (ratNearestDouble
        (((0 : Int) : ℚ) + (((10 : Int) : ℚ) - ((0 : Int) : ℚ)) / 3)))
      (ratNearestDouble (ratNearestDouble
        (((0 : Int) : ℚ) + 2 * (((10 : Int) : ℚ) - ((0 : Int) : ℚ)) / 3)))
      (ratNearestDouble ((10 : Int) : ℚ))
      (ratNearestDouble (((10 : Int) : ℚ) - ((0 : Int) : ℚ)))
      (ratNearestDouble (((10 : Int) : ℚ) -
        ratNearestDouble (((0 : Int) : ℚ) + (((10 : Int) : ℚ) - ((0 : Int) : ℚ)) / 3)))
      (ratNearestDouble (((10 : Int) : ℚ) -
        ratNearestDouble (((0 : Int) : ℚ) + 2 * (((10 : Int) : ℚ) - ((0 : Int) : ℚ)) / 3)))
      (ratNearestDouble (((10 : Int) : ℚ) - ((10 : Int) : ℚ)))) :=
  ⟨by decide, by decide,
   (general_segment_parametric_curve 10 ⟨0, 0⟩ ⟨10, 10⟩).1 (by decide) (by decide)⟩

/-- C4 counterexample: at the claim's own input p1 = (0,0), p2 = (10,10),
H = 10 the program's emitted y-coefficients are double-rounded binary64
values (printed 6.666666666666666 and 3.333333333333333, as the first
conjunct shows), so the emitted line is not the render of the exact
control-point values (2*0+10)/3 and (0+2*10)/3, whose section-6 render
prints 6.666666666666667 and 3.3333333333333335. -/
theorem parametric_exact_coefficients_counterexample :
    segment_line 10 ⟨0, 0⟩ ⟨10, 10⟩ =
      "(((1-t)^3*0.0 + 3*(1-t)^2*t*3.3333333333333335 + 3*(1-t)*t^2*6.666666666666667 + t^3*10.0), (1-t)^3*10.0 + 3*(1-t)^2*t*6.666666666666666 + 3*(1-t)*t^2*3.333333333333333 + t^3*0.0)" ∧
    segment_line 10 ⟨0, 0⟩ ⟨10, 10⟩ ≠
      renderEquation (.parametricCurve
        0 ((2 * 0 + 10) / 3) ((0 + 2 * 10) / 3) 10
        ((10 : ℚ) - 0) ((10 : ℚ) - (2 * 0 + 10) / 3) ((10 : ℚ) - (0 + 2 * 10) / 3)
        ((10 : ℚ) - 10)) := by
  have h1 : segment_line 10 ⟨0, 0⟩ ⟨10, 10⟩ =
      "(((1-t)^3*0.0 + 3*(1-t)^2*t*3.3333333333333335 + 3*(1-t)*t^2*6.666666666666667 + t^3*10.0), (1-t)^3*10.0 + 3*(1-t)^2*t*6.666666666666666 + 3*(1-t)*t^2*3.333333333333333 + t^3*0.0)" := by
    with_unfolding_all rfl
  refine ⟨h1, ?_⟩
  rw [h1]
  with_unfolding_all decide

/-- C7: The image-to-Cartesian flip is cartY(H,y) = H - y; every emitted
equation carries only flipped y-values — the vertical bounds and the
horizontal level are exact H - imageY ints, and all four y-axis curve
coefficients are binary64 subtractions H - imageY (the image-space control
values themselves being binary64 thirds) — a vertex at image-row 0 maps to
Cartesian y = H and a vertex at image-row H-1 maps to Cartesian y = 1. -/
theorem cartesian_flip_applied (H : Int) (p1 p2 : Pt) :
    (segment_line H p1 p2 = renderEquation (.verticalLine p1.x
        (min (cartY H p1.y) (cartY H p2.y)) (max (cartY H p1.y) (cartY H p2.y))) ∨
     segment_line H p1 p2 = renderEquation (.horizontalLine (cartY H p1.y)
        (min p1.x p2.x) (max p1.x p2.x)) ∨
     segment_line H p1 p2 = renderEquation (.parametricCurve
        (ratNearestDouble (p1.x : ℚ))
        (ratNearestDouble (ratNearestDouble (((2 * p1.x + p2.x : Int) : ℚ) / 3)))
        (ratNearestDouble (ratNearestDouble (((p1.x + 2 * p2.x : Int) : ℚ) / 3)))
        (ratNearestDouble (p2.x : ℚ))
        (ratNearestDouble ((H : ℚ) - (p1.y : ℚ)))
        (ratNearestDouble ((H : ℚ) - ratNearestDouble (((2 * p1.y + p2.y : Int) : ℚ) / 3)))
        (ratNearestDouble ((H : ℚ) - ratNearestDouble (((p1.y + 2 * p2.y : Int) : ℚ) / 3)))
        (ratNearestDouble ((H : ℚ) - (p2.y : ℚ))))) ∧
    (∀ y : Int, cartY H y = H - y) ∧ cartY H 0 = H ∧ cartY H (H - 1) = 1 := by
  refine ⟨?_, fun y => rfl, by simp [cartY], by simp [cartY]⟩
  by_cases h1 : p2.x - p1.x = 0
  · left
    rw [segment_line_eq_vert H p1 p2 h1]
    have e1 : H - max p1.y p2.y = min (cartY H p1.y) (cartY H p2.y) := by
      simp only [cartY]; omega
    have e2 : H - min p1.y p2.y = max (cartY H p1.y) (cartY H p2.y) := by
      simp only [cartY]; omega
    simp only [renderEquation, e1, e2]
  · by_cases h2 : p2.y - p1.y = 0
    · right; left
      rw [segment_line_eq_horiz H p1 p2 h1 h2]
      rfl
    · right; right
      exact segment_line_eq_curve H p1 p2 h1 h2

/-! ### Pipeline helper lemmas -/

lemma polygon_lines_length (H : Int) (approx : List Pt) :
    (polygon_lines H approx).length = approx.length := by
  simp [polygon_lines]

lemma polygon_lines_getD (H : Int) (approx : List Pt) (i : Nat)
    (hi : i < approx.length) :
    (polygon_lines H approx).getD i "" =
      segment_line H (approx.getD i default)
        (approx.getD ((i + 1) % approx.length) default) := by
  simp [polygon_lines, List.getD_eq_getElem?_getD, List.getElem?_map,
    List.getElem?_range, hi]

lemma mem_polygon_lines {H : Int} {approx : List Pt} {l : String}
    (hl : l ∈ polygon_lines H approx) : ∃ p q : Pt, l = segment_line H p q := by
  simp only [polygon_lines, List.mem_map, List.mem_range] at hl
  obtain ⟨i, _, hi⟩ := hl
  exact ⟨_, _, hi.symm⟩

lemma mem_image_lines {H : Int} {f : List Pt → List Pt}
    {cs : List (List Pt)} {l : String} (hl : l ∈ image_lines H f cs) :
    ∃ p q : Pt, l = segment_line H p q := by
  simp only [image_lines, List.mem_flatten, List.mem_map] at hl
  obtain ⟨L, ⟨c, _, hc⟩, hlL⟩ := hl
  subst hc
  unfold contour_lines at hlL
  split at hlL
  · simp at hlL
  · dsimp only at hlL
    split at hlL
    · simp at hlL
    · exact mem_polygon_lines hlL

lemma segment_line_head (H : Int) (p1 p2 : Pt) :
    (segment_line H p1 p2).data.head? = some 'x' ∨
    (segment_line H p1 p2).data.head? = some 'y' ∨
    (segment_line H p1 p2).data.head? = some '(' := by
  by_cases h1 : p2.x - p1.x = 0
  · left
    rw [segment_line_eq_vert H p1 p2 h1]
    simp only [vertLineStr, String.data_append]
    rw [List.head?_append, List.head?_append]
    rfl
  · by_cases h2 : p2.y - p1.y = 0
    · right; left
      rw [segment_line_eq_horiz H p1 p2 h1 h2]
      simp only [horizLineStr, String.data_append]
      rw [List.head?_append, List.head?_append]
      rfl
    · right; right
      rw [segment_line_eq_curve H p1 p2 h1 h2]
      simp only [renderEquation, String.data_append]
      rw [List.head?_append, List.head?_append]
      rfl

lemma joinLines_cons (l : String) (ls : List String) :
    ∃ t, joinLines (l :: ls) = l ++ t := by
  cases ls with
  | nil => exact ⟨"", by simp [joinLines]⟩
  | cons y ys => exact ⟨"\n" ++ joinLines (y :: ys), by simp [joinLines, String.append_assoc]⟩

/-! ### Claim theorems: pipeline structure -/

/-- C6: A simplified polygon with V ≥ 2 vertices yields exactly V segments
and exactly V emitted equations, the segments being consecutive vertex
pairs by cyclic index (i, (i+1) mod V), so the last equation pairs the last
vertex with the first (the wrap-around pair). -/
theorem polygon_segment_count (H : Int) (f : List Pt → List Pt) (c : List Pt)
    (h1 : 2 ≤ c.length) (h2 : 2 ≤ (f c).length) :
    (contour_lines H f c).length = (f c).length ∧
    (∀ i, i < (f c).length →
      (contour_lines H f c).getD i "" =
        segment_line H ((f c).getD i default)
          ((f c).getD ((i + 1) % (f c).length) default)) ∧
    (contour_lines H f c).getD ((f c).length - 1) "" =
      segment_line H ((f c).getLastD default) ((f c).headD default) := by
  have hc : ¬ (c.length < 2) := by omega
  have ha : ¬ ((f c).length < 2) := by omega
  have hcl : contour_lines H f c = polygon_lines H (f c) := by
    simp [contour_lines, if_neg hc, if_neg ha]
  have hne : f c ≠ [] := by
    intro hnil
    rw [hnil] at h2
    simp at h2
  refine ⟨by rw [hcl]; exact polygon_lines_length H (f c), ?_, ?_⟩
  · intro i hi
    rw [hcl]
    exact polygon_lines_getD H (f c) i hi
  · rw [hcl, polygon_lines_getD H (f c) ((f c).length - 1) (by omega)]
    have hmod : ((f c).length - 1 + 1) % (f c).length = 0 := by
      have : (f c).length - 1 + 1 = (f c).length := by omega
      rw [this, Nat.mod_self]
    rw [hmod]
    rw [List.getD_eq_getElem?_getD, ← List.getLast?_eq_getElem? (f c),
      ← List.getLastD_eq_getLast?, List.getD_eq_getElem?_getD,
      ← List.head?_eq_getElem?, ← List.headD_eq_head?_getD]

/-- C6 witness: a 3-vertex polygon yields 3 equations with the cyclic pairs. -/
theorem polygon_segment_count_witness :
    2 ≤ ([⟨0, 0⟩, ⟨4, 0⟩, ⟨9, 7⟩] : List Pt).length ∧
    (contour_lines 9 (fun c => c) [⟨0, 0⟩, ⟨4, 0⟩, ⟨9, 7⟩]).length =
      (([⟨0, 0⟩, ⟨4, 0⟩, ⟨9, 7⟩] : List Pt)).length ∧
    (contour_lines 9 (fun c => c) [⟨0, 0⟩, ⟨4, 0⟩, ⟨9, 7⟩]).getD 2 "" =
      segment_line 9 ⟨9, 7⟩ ⟨0, 0⟩ := by
  refine ⟨by decide, ?_, ?_⟩
  · exact (polygon_segment_count 9 (fun c => c) [⟨0, 0⟩, ⟨4, 0⟩, ⟨9, 7⟩]
      (by decide) (by decide)).1
  · exact (polygon_segment_count 9 (fun c => c) [⟨0, 0⟩, ⟨4, 0⟩, ⟨9, 7⟩]
      (by decide) (by decide)).2.2

/-- C9: A contour with fewer than 2 points, or one whose simplification has
fewer than 2 vertices, contributes zero equations, and the surrounding
contours are processed with their equations unaffected (the total line list
is the same as if the degenerate contour were absent). -/
theorem degenerate_contour_skipped (H : Int) (f : List Pt → List Pt)
    (c : List Pt) (h : c.length < 2 ∨ (f c).length < 2) :
    contour_lines H f c = [] ∧
    ∀ cs1 cs2, image_lines H f (cs1 ++ c :: cs2) = image_lines H f (cs1 ++ cs2) := by
  have hz : contour_lines H f c = [] := by
    rcases h with h | h
    · simp [contour_lines, h]
    · by_cases h0 : c.length < 2
      · simp [contour_lines, h0]
      · simp [contour_lines, h0, h]
  refine ⟨hz, fun cs1 cs2 => ?_⟩
  simp [image_lines, hz]

/-- C9 witness: a 1-point contour between two good contours contributes
nothing and leaves the others untouched. -/
theorem degenerate_contour_skipped_witness :
    (([⟨3, 3⟩] : List Pt).length < 2 ∨
      ((fun c => c) ([⟨3, 3⟩] : List Pt)).length < 2) ∧
    contour_lines 9 (fun c => c) [⟨3, 3⟩] = [] ∧
    image_lines 9 (fun c => c) ([[⟨0, 0⟩, ⟨0, 5⟩]] ++ [⟨3, 3⟩] :: [[⟨1, 1⟩, ⟨4, 1⟩]]) =
      image_lines 9 (fun c => c) ([[⟨0, 0⟩, ⟨0, 5⟩]] ++ [[⟨1, 1⟩, ⟨4, 1⟩]]) := by
  refine ⟨Or.inl (by decide), ?_, ?_⟩
  · exact (degenerate_contour_skipped 9 (fun c => c) [⟨3, 3⟩] (Or.inl (by decide))).1
  · exact (degenerate_contour_skipped 9 (fun c => c) [⟨3, 3⟩]
      (Or.inl (by decide))).2 [[⟨0, 0⟩, ⟨0, 5⟩]] [[⟨1, 1⟩, ⟨4, 1⟩]]

/-- C8: The pipeline output is the verbatim fallback line if and only if
zero equation lines were produced across every contour; otherwise it is
exactly the newline-join of the emitted equations (which is never the
fallback line, since every equation line opens with a character other
than the '#' that opens the fallback). -/
theorem fallback_iff_no_equations (H : Int) (f : List Pt → List Pt)
    (cs : List (List Pt)) :
    (image_to_equations H f cs = fallbackLine ↔ image_lines H f cs = []) ∧
    (image_lines H f cs ≠ [] →
      image_to_equations H f cs = joinLines (image_lines H f cs)) := by
  by_cases h : image_lines H f cs = []
  · refine ⟨⟨fun _ => h, fun _ => ?_⟩, fun hne => absurd h hne⟩
    simp [image_to_equations, h]
  · have hout : image_to_equations H f cs = joinLines (image_lines H f cs) := by
      simp [image_to_equations, h]
    refine ⟨⟨fun hEq => ?_, fun hz => absurd hz h⟩, fun _ => hout⟩
    exfalso
    obtain ⟨l, ls, hls⟩ : ∃ l ls, image_lines H f cs = l :: ls := by
      cases hl : image_lines H f cs with
      | nil => exact absurd hl h
      | cons a as => exact ⟨_, _, rfl⟩
    have hmem : l ∈ image_lines H f cs := by
      rw [hls]
      exact List.mem_cons_self l ls
    obtain ⟨p, q, hl'⟩ := mem_image_lines hmem
    obtain ⟨t, ht⟩ := joinLines_cons l ls
    rw [hout, hls, ht] at hEq
    have hhead := congrArg (fun s => s.data.head?) hEq
    simp only [String.data_append] at hhead
    rw [List.head?_append] at hhead
    rcases segment_line_head H p q with hx | hx | hx <;>
      rw [hl'] at hhead <;> rw [hx] at hhead <;> simp [fallbackLine] at hhead

/-- C8 witness: one good contour produces the join, an empty contour list
produces the fallback. -/
theorem fallback_iff_no_equations_witness :
    image_lines 9 (fun c => c) [[⟨2, 2⟩, ⟨2, 7⟩]] ≠ [] ∧
    image_to_equations 9 (fun c => c) [[⟨2, 2⟩, ⟨2, 7⟩]] =
      joinLines (image_lines 9 (fun c => c) [[⟨2, 2⟩, ⟨2, 7⟩]]) ∧
    (image_to_equations 9 (fun c => c) ([] : List (List Pt)) = fallbackLine ↔
      image_lines 9 (fun c => c) ([] : List (List Pt)) = []) := by
  refine ⟨by decide, ?_, ?_⟩
  · exact (fallback_iff_no_equations 9 (fun c => c) [[⟨2, 2⟩, ⟨2, 7⟩]]).2 (by decide)
  · exact (fallback_iff_no_equations 9 (fun c => c) ([] : List (List Pt))).1

/-- C10: The pipeline is deterministic: the output depends only on the
decoded image data (height and contours, with the simplifier they induce)
— equal inputs give equal output text, with no other state involved. -/
theorem pipeline_deterministic (H1 H2 : Int) (f1 f2 : List Pt → List Pt)
    (cs1 cs2 : List (List Pt)) (hH : H1 = H2) (hf : f1 = f2) (hcs : cs1 = cs2) :
    image_to_equations H1 f1 cs1 = image_to_equations H2 f2 cs2 := by
  subst hH
  subst hf
  subst hcs
  rfl

/-- C10 witness: two invocations on the same concrete input agree. -/
theorem pipeline_deterministic_witness :
    image_to_equations 9 (fun c => c) [[⟨2, 2⟩, ⟨2, 7⟩]] =
      image_to_equations 9 (fun c => c) [[⟨2, 2⟩, ⟨2, 7⟩]] :=
  pipeline_deterministic 9 9 (fun c => c) (fun c => c)
    [[⟨2, 2⟩, ⟨2, 7⟩]] [[⟨2, 2⟩, ⟨2, 7⟩]] rfl rfl rfl

/-! ### Claim theorems: output text contract -/

/-- C1 (amended): every line of the output text follows the literal
rendering of spec section 6 for its equation kind — vertical, horizontal or
parametric-curve template — where line-equation bounds are decimal ints and
curve coefficients are rendered in Python float notation (which keeps a
trailing .0 on integral values rather than rendering them as ints). -/
theorem output_lines_follow_templates (H : Int) (f : List Pt → List Pt)
    (cs : List (List Pt)) (l : String) (hl : l ∈ image_lines H f cs) :
    (∃ x a b : Int, l = renderEquation (.verticalLine x a b)) ∨
    (∃ y a b : Int, l = renderEquation (.horizontalLine y a b)) ∨
    (∃ sx c1x c2x ex sy c1y c2y ey : ℚ,
      l = renderEquation (.parametricCurve sx c1x c2x ex sy c1y c2y ey)) := by
  obtain ⟨p, q, hl'⟩ := mem_image_lines hl
  subst hl'
  by_cases h1 : q.x - p.x = 0
  · left
    exact ⟨p.x, H - max p.y q.y, H - min p.y q.y,
      by rw [segment_line_eq_vert H p q h1]; rfl⟩
  · by_cases h2 : q.y - p.y = 0
    · right; left
      exact ⟨H - p.y, min p.x q.x, max p.x q.x,
        by rw [segment_line_eq_horiz H p q h1 h2]; rfl⟩
    · right; right
      exact ⟨_, _, _, _, _, _, _, _, segment_line_eq_curve H p q h1 h2⟩

/-- C1 witness: a concrete emitted line and its template form. -/
theorem output_lines_follow_templates_witness :
    ("x = 2 \\left\\\x7b2 <= y <= 7\\right\\\x7d" ∈
      image_lines 9 (fun c => c) [[⟨2, 2⟩, ⟨2, 7⟩]]) ∧
    ((∃ x a b : Int,
        "x = 2 \\left\\\x7b2 <= y <= 7\\right\\\x7d" =
          renderEquation (.verticalLine x a b)) ∨
     (∃ y a b : Int,
        "x = 2 \\left\\\x7b2 <= y <= 7\\right\\\x7d" =
          renderEquation (.horizontalLine y a b)) ∨
     (∃ sx c1x c2x ex sy c1y c2y ey : ℚ,
        "x = 2 \\left\\\x7b2 <= y <= 7\\right\\\x7d" =
          renderEquation (.parametricCurve sx c1x c2x ex sy c1y c2y ey))) :=
  ⟨by decide,
   output_lines_follow_templates 9 (fun c => c) [[⟨2, 2⟩, ⟨2, 7⟩]]
     "x = 2 \\left\\\x7b2 <= y <= 7\\right\\\x7d" (by decide)⟩

/-- C1 counterexample: for the segment (0,0)-(3,3) at image height 3 every
curve coefficient is integral, yet the emitted line renders them in float
notation (0.0, 1.0, 2.0, 3.0), not as the ints the claim requires. -/
theorem output_int_rendering_counterexample :
    segment_line 3 ⟨0, 0⟩ ⟨3, 3⟩ =
      "(((1-t)^3*0.0 + 3*(1-t)^2*t*1.0 + 3*(1-t)*t^2*2.0 + t^3*3.0), (1-t)^3*3.0 + 3*(1-t)^2*t*2.0 + 3*(1-t)*t^2*1.0 + t^3*0.0)" ∧
    segment_line 3 ⟨0, 0⟩ ⟨3, 3⟩ ≠
      "(((1-t)^3*0 + 3*(1-t)^2*t*1 + 3*(1-t)*t^2*2 + t^3*3), (1-t)^3*3 + 3*(1-t)^2*t*2 + 3*(1-t)*t^2*1 + t^3*0)" := by
  have h1 : segment_line 3 ⟨0, 0⟩ ⟨3, 3⟩ =
      "(((1-t)^3*0.0 + 3*(1-t)^2*t*1.0 + 3*(1-t)*t^2*2.0 + t^3*3.0), (1-t)^3*3.0 + 3*(1-t)^2*t*2.0 + 3*(1-t)*t^2*1.0 + t^3*0.0)" := by
    with_unfolding_all rfl
  exact ⟨h1, by rw [h1]; decide⟩

/-! ### Simplifier monotonicity -/

lemma maxIdx_fst_lt (a b : Pt) : ∀ (mid : List Pt), mid ≠ [] →
    (maxIdx a b mid).1 < mid.length := by
  intro mid
  induction mid with
  | nil => simp
  | cons p rest ih =>
    intro _
    cases rest with
    | nil => simp [maxIdx]
    | cons q rs =>
      simp only [maxIdx]
      split
      · have := ih (by simp)
        simp only [List.length_cons] at this ⊢
        omega
      · simp

lemma rdpF_length_ge_two (fl : Nat) :
    ∀ (s : ℚ) (a : Pt) (mid : List Pt) (b : Pt), 2 ≤ (rdpF fl s a mid b).length := by
  induction fl with
  | zero =>
    intro s a mid b
    simp [rdpF]
  | succ fl ih =>
    intro s a mid b
    cases mid with
    | nil => simp [rdpF]
    | cons m ms =>
      simp only [rdpF]
      split
      · simp
      · rw [List.length_append, List.length_tail]
        have h1 := ih s a ((m :: ms).take (maxIdx a b (m :: ms)).1)
          ((m :: ms).getD (maxIdx a b (m :: ms)).1 default)
        have h2 := ih s ((m :: ms).getD (maxIdx a b (m :: ms)).1 default)
          ((m :: ms).drop ((maxIdx a b (m :: ms)).1 + 1)) b
        omega

lemma rdpF_length_mono (fl : Nat) :
    ∀ (s1 s2 : ℚ) (a : Pt) (mid : List Pt) (b : Pt), s1 ≤ s2 →
      (rdpF fl s2 a mid b).length ≤ (rdpF fl s1 a mid b).length := by
  induction fl with
  | zero =>
    intro s1 s2 a mid b _
    simp [rdpF]
  | succ fl ih =>
    intro s1 s2 a mid b h
    cases mid with
    | nil => simp [rdpF]
    | cons m ms =>
      simp only [rdpF]
      by_cases h1 : (maxIdx a b (m :: ms)).2 ≤ s1
      · rw [if_pos h1, if_pos (le_trans h1 h)]
      · by_cases h2 : (maxIdx a b (m :: ms)).2 ≤ s2
        · rw [if_neg h1, if_pos h2]
          have g1 := rdpF_length_ge_two fl s1 a ((m :: ms).take (maxIdx a b (m :: ms)).1)
            ((m :: ms).getD (maxIdx a b (m :: ms)).1 default)
          have g2 := rdpF_length_ge_two fl s1
            ((m :: ms).getD (maxIdx a b (m :: ms)).1 default)
            ((m :: ms).drop ((maxIdx a b (m :: ms)).1 + 1)) b
          rw [List.length_append, List.length_tail]
          simp only [List.length_cons, List.length_nil]
          omega
        · rw [if_neg h1, if_neg h2]
          rw [List.length_append, List.length_append, List.length_tail, List.length_tail]
          have hL := ih s1 s2 a ((m :: ms).take (maxIdx a b (m :: ms)).1)
            ((m :: ms).getD (maxIdx a b (m :: ms)).1 default) h
          have hR := ih s1 s2 ((m :: ms).getD (maxIdx a b (m :: ms)).1 default)
            ((m :: ms).drop ((maxIdx a b (m :: ms)).1 + 1)) b h
          have g1 := rdpF_length_ge_two fl s2
            ((m :: ms).getD (maxIdx a b (m :: ms)).1 default)
            ((m :: ms).drop ((maxIdx a b (m :: ms)).1 + 1)) b
          have g2 := rdpF_length_ge_two fl s1
            ((m :: ms).getD (maxIdx a b (m :: ms)).1 default)
            ((m :: ms).drop ((maxIdx a b (m :: ms)).1 + 1)) b
          omega

lemma rdpChain_length_ge_two (s : ℚ) (l : List Pt) (h : 2 ≤ l.length) :
    2 ≤ (rdpChain s l).length := by
  cases l with
  | nil => simp at h
  | cons a rest =>
    cases rest with
    | nil => simp at h
    | cons b rs =>
      simp only [rdpChain]
      exact rdpF_length_ge_two _ _ _ _ _

lemma rdpChain_length_mono (s1 s2 : ℚ) (h : s1 ≤ s2) (l : List Pt) :
    (rdpChain s2 l).length ≤ (rdpChain s1 l).length := by
  cases l with
  | nil => simp [rdpChain]
  | cons a rest =>
    cases rest with
    | nil => simp [rdpChain]
    | cons b rs =>
      simp only [rdpChain]
      exact rdpF_length_mono _ _ _ _ _ _ h

lemma simplifyClosed_length_mono (e1 e2 : ℚ) (h1 : 0 ≤ e1) (h : e1 ≤ e2)
    (c : List Pt) :
    (simplifyClosed e2 c).length ≤ (simplifyClosed e1 c).length := by
  cases c with
  | nil => simp [simplifyClosed]
  | cons c0 rest =>
    cases rest with
    | nil => simp [simplifyClosed]
    | cons c1 rs =>
      simp only [simplifyClosed]
      have hsq : e1 ^ 2 ≤ e2 ^ 2 := pow_le_pow_left₀ h1 h 2
      have hfl : (maxIdx c0 c0 (c1 :: rs)).1 < (c1 :: rs).length :=
        maxIdx_fst_lt c0 c0 (c1 :: rs) (by simp)
      have hchain2 : 2 ≤
          (((c0 :: c1 :: rs).drop ((maxIdx c0 c0 (c1 :: rs)).1 + 1)) ++ [c0]).length := by
        rw [List.length_append, List.length_drop]
        simp only [List.length_cons] at hfl ⊢
        omega
      have m1 := rdpChain_length_mono (e1 ^ 2) (e2 ^ 2) hsq
        ((c0 :: c1 :: rs).take ((maxIdx c0 c0 (c1 :: rs)).1 + 1 + 1))
      have m2 := rdpChain_length_mono (e1 ^ 2) (e2 ^ 2) hsq
        (((c0 :: c1 :: rs).drop ((maxIdx c0 c0 (c1 :: rs)).1 + 1)) ++ [c0])
      have g1 := rdpChain_length_ge_two (e1 ^ 2) _ hchain2
      have g2 := rdpChain_length_ge_two (e2 ^ 2) _ hchain2
      rw [List.length_append, List.length_append]
      simp only [List.length_dropLast, List.length_tail]
      omega

/-- C2 (spec-modelled): for every contour with at least 2 points and all
tolerances k2 > k1 > 0, simplification with epsilon = k2 * perimeter yields
no more vertices than with epsilon = k1 * perimeter (P stands for the
closed-loop perimeter, any nonnegative value). -/
theorem simplify_vertex_count_monotone (c : List Pt) (P k1 k2 : ℚ)
    (hc : 2 ≤ c.length) (hk1 : 0 < k1) (hk12 : k1 < k2) (hP : 0 ≤ P) :
    (simplifyClosed (k2 * P) c).length ≤ (simplifyClosed (k1 * P) c).length := by
  have _ := hc
  apply simplifyClosed_length_mono
  · exact mul_nonneg hk1.le hP
  · exact mul_le_mul_of_nonneg_right hk12.le hP

/-- C2 witness: an octagonal contour, perimeter value 8, tolerances 1/100
and 1; the large tolerance keeps 2 vertices, the small one 4. -/
theorem simplify_vertex_count_monotone_witness :
    2 ≤ ([⟨0, 0⟩, ⟨1, 0⟩, ⟨2, 0⟩, ⟨2, 1⟩, ⟨2, 2⟩, ⟨1, 2⟩, ⟨0, 2⟩, ⟨0, 1⟩] : List Pt).length ∧
    (0 : ℚ) < 1/100 ∧ (1/100 : ℚ) < 1 ∧ (0 : ℚ) ≤ 8 ∧
    (simplifyClosed ((1 : ℚ) * 8)
        [⟨0, 0⟩, ⟨1, 0⟩, ⟨2, 0⟩, ⟨2, 1⟩, ⟨2, 2⟩, ⟨1, 2⟩, ⟨0, 2⟩, ⟨0, 1⟩]).length ≤
      (simplifyClosed ((1/100 : ℚ) * 8)
        [⟨0, 0⟩, ⟨1, 0⟩, ⟨2, 0⟩, ⟨2, 1⟩, ⟨2, 2⟩, ⟨1, 2⟩, ⟨0, 2⟩, ⟨0, 1⟩]).length :=
  ⟨by decide, by norm_num, by norm_num, by norm_num,
   simplify_vertex_count_monotone
     [⟨0, 0⟩, ⟨1, 0⟩, ⟨2, 0⟩, ⟨2, 1⟩, ⟨2, 2⟩, ⟨1, 2⟩, ⟨0, 2⟩, ⟨0, 1⟩]
     8 (1/100) 1 (by decide) (by norm_num) (by norm_num) (by norm_num)⟩

end DesmosDrawer
